import Mathlib

/-!
Verification of the data-transform core of the AI Strategy prioritization
tool (readiness scoring, use-case scoring/ranking, impact/feasibility
bucketizing, and project JSON import/export).

Modelling conventions for the JavaScript/TypeScript source:
* JS numbers are modelled as exact rationals `ℚ`; `NaN` (and `undefined`
  flowing into `Number(...)`) is modelled by `Option` with `none` for NaN.
  Non-finite coercions (`"Infinity"`), exponent notation, surrounding
  whitespace in numeric strings and array-to-number coercion are not
  modelled; no claim depends on them.
* Dynamically-typed JSON payloads are modelled by the inductive `JsonVal`;
  an absent field (`undefined`) is `Option.none`.
* JS objects are key-value lists with distinct keys; a `Record` with
  integer-like keys enumerates them ascending, which is modelled by keeping
  placement entries sorted by key.
-/

namespace AIStrategy

/-- JS `Math.round`: round half toward positive infinity, `⌊x + 1/2⌋`.
Written with `Rat.divInt` so that it evaluates inside the kernel;
`jsRound_eq` states the usual floor form. -/
def jsRound (q : ℚ) : ℤ := Rat.floor (Rat.divInt (2 * q.num + (q.den : ℤ)) (2 * (q.den : ℤ)))

/-- A parsed JSON value (result of `JSON.parse`). -/
inductive JsonVal where
  | null : JsonVal
  | bool : Bool → JsonVal
  | num : ℚ → JsonVal
  | str : String → JsonVal
  | arr : List JsonVal → JsonVal
  | obj : List (String × JsonVal) → JsonVal

/-- Property lookup on an object's field list (first match). -/
def lookupField : List (String × JsonVal) → String → Option JsonVal
  | [], _ => none
  | (k, v) :: rest, key => if k = key then some v else lookupField rest key

/-- JS property access `v?.key`: `undefined` (`none`) unless `v` is an object
with the field. Named properties of arrays and primitives are `undefined`. -/
def getField : JsonVal → String → Option JsonVal
  | .obj l, key => lookupField l key
  | _, _ => none

/-- JS test `v && typeof v === "object"`: true for objects and arrays,
false for `null` (falsy) and all primitives. -/
def isObjTruthy : JsonVal → Bool
  | .obj _ => true
  | .arr _ => true
  | _ => false

/-- Decimal digit test on characters. -/
def isDigitC (c : Char) : Bool := 48 ≤ c.toNat && c.toNat ≤ 57

/-- The decimal digit character for `d < 10`. -/
def digitChar : ℕ → Char
  | 0 => '0'
  | 1 => '1'
  | 2 => '2'
  | 3 => '3'
  | 4 => '4'
  | 5 => '5'
  | 6 => '6'
  | 7 => '7'
  | 8 => '8'
  | 9 => '9'
  | _ => '*'

/-- Big-endian decimal digits of `n`, fuel-based (empty for `n = 0`). -/
def natToDigitsAux : ℕ → ℕ → List ℕ
  | 0, _ => []
  | fuel + 1, n => if n = 0 then [] else natToDigitsAux fuel (n / 10) ++ [n % 10]

/-- Big-endian decimal digits of `n` (`[0]` for zero). -/
def natDigitsBE (n : ℕ) : List ℕ := if n = 0 then [0] else natToDigitsAux n n

/-- Decimal string of a natural number, as JS `String(n)` produces. -/
def natRepr (n : ℕ) : String := ⟨(natDigitsBE n).map digitChar⟩

/-- Decimal string of an integer, as JS `String(i)` produces. -/
def intKeyStr : ℤ → String
  | .ofNat n => natRepr n
  | .negSucc n => "-" ++ natRepr (n + 1)

/-- Value of a big-endian list of digit characters. -/
def natFromDigitChars (cs : List Char) : ℕ :=
  cs.foldl (fun a c => 10 * a + (c.toNat - 48)) 0

/-- Split a character list into its maximal digit prefix and the rest. -/
def splitDigits : List Char → List Char × List Char
  | [] => ([], [])
  | c :: cs =>
    if isDigitC c then (c :: (splitDigits cs).1, (splitDigits cs).2)
    else ([], c :: cs)

/-- Parse an unsigned decimal literal (integer or with a fraction part),
returning `none` (NaN) on anything else. -/
def parseUnsigned (cs : List Char) : Option ℚ :=
  match splitDigits cs with
  | (ip, []) => if ip.isEmpty then none else some ((natFromDigitChars ip : ℚ))
  | (ip, '.' :: fp) =>
    if fp.all isDigitC && (!ip.isEmpty || !fp.isEmpty) then
      some (Rat.divInt ((natFromDigitChars ip : ℤ) * 10 ^ fp.length + (natFromDigitChars fp : ℤ)) (10 ^ fp.length))
    else none
  | _ => none

/-- JS `Number(s)` on a string: `""` is 0, decimal literals parse, anything
else is NaN (`none`). -/
def strToNumber (s : String) : Option ℚ :=
  match s.data with
  | [] => some 0
  | c :: cs => if c = '-' then (parseUnsigned cs).map (fun q => -q) else parseUnsigned (c :: cs)

/-- JS `Number(v)` on a possibly-absent JSON value: `undefined` and objects
give NaN, `null` gives 0, booleans give 0/1. -/
def toNumber : Option JsonVal → Option ℚ
  | none => none
  | some .null => some 0
  | some (.bool b) => some (if b then 1 else 0)
  | some (.num q) => some q
  | some (.str s) => strToNumber s
  | some (.arr _) => none
  | some (.obj _) => none

/-- `clamp15` from Scoring_Readiness.tsx: NaN goes to 1, otherwise round
and clamp into `[1,5]`. -/
def clamp15 : Option ℚ → ℤ
  | none => 1
  | some q => max 1 (min 5 (jsRound q))

/-- `clamp01to10` from AISpiderCharts.tsx: NaN goes to 0 (sic), otherwise
round and clamp into `[1,10]`. -/
def clamp01to10 : Option ℚ → ℤ
  | none => 0
  | some q => max 1 (min 10 (jsRound q))

/-- `clamp1to5` from the project importer: coerce with `Number`, round,
NaN goes to 1, clamp into `[1,5]`. -/
def clamp1to5 (v : Option JsonVal) : ℤ :=
  match toNumber v with
  | none => 1
  | some q => max 1 (min 5 (jsRound q))

/-- `clamp1to10` from the project importer: coerce with `Number`, round,
NaN goes to 1, clamp into `[1,10]`. -/
def clamp1to10 (v : Option JsonVal) : ℤ :=
  match toNumber v with
  | none => 1
  | some q => max 1 (min 10 (jsRound q))

/-- The 8 use-case criterion scores. -/
structure CriteriaScores where
  dataReady : ℤ
  techMature : ℤ
  lowImplementationCost : ℤ
  reusable : ℤ
  increasesProductivity : ℤ
  reducesCosts : ℤ
  benefitsPublic : ℤ
  noRisk : ℤ
  deriving DecidableEq

/-- A use case as held in application state. -/
structure UseCase where
  id : ℕ
  name : String
  description : String
  visible : Bool
  scores : CriteriaScores
  deriving DecidableEq

/-- The 11 readiness dimensions plus the notes field. -/
structure ReadinessScores where
  dataMaturity : ℤ
  peopleSkills : ℤ
  processesWorkflows : ℤ
  governanceRisk : ℤ
  resourcesBudget : ℤ
  techInfra : ℤ
  changeReadiness : ℤ
  leadershipAlignment : ℤ
  partnerships : ℤ
  citizenOrientation : ℤ
  ethicsTrust : ℤ
  notes : String
  deriving DecidableEq

/-- `defaultReadiness()` from the source: every dimension 3, empty notes. -/
def defaultReadiness : ReadinessScores := ⟨3, 3, 3, 3, 3, 3, 3, 3, 3, 3, 3, ""⟩

/-- A placement coordinate pair: x = feasibility, y = impact, both in `[0,1]`. -/
structure Point where
  x : ℚ
  y : ℚ
  deriving DecidableEq

/-- The placements map: id-keyed entries (kept sorted by key, matching JS
`Record` enumeration of integer-like keys) plus the transient `__activeId`
drag marker the UI stashes in the same object. -/
structure Placements where
  entries : List (ℤ × Point)
  activeId : Option ℕ
  deriving DecidableEq

/-- The three-horizons buckets computed by `horizonBuckets`. -/
structure Buckets where
  H1 : List UseCase
  H2 : List UseCase
  H3 : List UseCase
  deriving DecidableEq

/-- One output row of `rank`. -/
structure RankEntry where
  rank : ℕ
  name : String
  avg : ℤ
  deriving DecidableEq

/-- The whole in-memory project state handled by import/export. -/
structure ProjState where
  scores : ReadinessScores
  useCases : List UseCase
  placements : Placements
  deriving DecidableEq

/-- Sum of the 8 criterion values (`Object.values(u.scores)` summed). -/
def sumScores (s : CriteriaScores) : ℤ :=
  s.dataReady + s.techMature + s.lowImplementationCost + s.reusable +
    s.increasesProductivity + s.reducesCosts + s.benefitsPublic + s.noRisk

/-- `averageScore` from AISpiderCharts.tsx: `Math.round` of the mean of the
8 criterion values (`divInt` form of `(sum : ℚ) / 8`, see
`averageScore_eq`). -/
def averageScore (u : UseCase) : ℤ := jsRound (Rat.divInt (sumScores u.scores) 8)

/-- Modelled from the spec: the §4.2 aggregator contract, the exact
arithmetic mean as a rational with equal weights and no rounding; stated
for comparison against the implementation's `averageScore`. -/
def specAverage (u : UseCase) : ℚ := (sumScores u.scores : ℚ) / 8

/-- `u.name || defaultLabel` as used by `rank`. -/
def displayName (u : UseCase) : String :=
  if u.name = "" then "Use Case " ++ natRepr (u.id + 1) else u.name

/-- Stable descending insertion by average (second component): the new
element is placed before the first element whose average is not larger. -/
def insertDesc (p : UseCase × ℤ) : List (UseCase × ℤ) → List (UseCase × ℤ)
  | [] => [p]
  | q :: rest => if q.2 ≤ p.2 then p :: q :: rest else q :: insertDesc p rest

/-- Stable descending insertion sort by average, modelling the ES2019+
stable `Array.prototype.sort((a, b) => b.avg - a.avg)`. -/
def isortDesc : List (UseCase × ℤ) → List (UseCase × ℤ)
  | [] => []
  | p :: rest => insertDesc p (isortDesc rest)

/-- Assign rank `position + 1` down the sorted sequence. -/
def rankGo : ℕ → List (UseCase × ℤ) → List RankEntry
  | _, [] => []
  | n, p :: rest => ⟨n + 1, displayName p.1, p.2⟩ :: rankGo (n + 1) rest

/-- `rank` from AISpiderCharts.tsx: augment each use case with its average,
stable-sort descending by average, then emit `{rank, name, avg}` rows. -/
def rank (useCases : List UseCase) : List RankEntry :=
  rankGo 0 (isortDesc (useCases.map (fun u => (u, averageScore u))))

/-- `placements[id]` lookup (the numeric keys; never the drag marker). -/
def lookupPl (pl : Placements) (id : ℕ) : Option Point :=
  (pl.entries.find? (fun kv => kv.1 == (id : ℤ))).map (fun kv => kv.2)

/-- `getPos` from ImpactFeasibility.tsx: missing placements default to the
center `(0.5, 0.5)` (`mkRat` keeps the literal kernel-computable). -/
def getPos (pl : Placements) (id : ℕ) : Point := (lookupPl pl id).getD ⟨mkRat 1 2, mkRat 1 2⟩

/-- `placements[u.id]?.y ?? 0.5`: the impact coordinate used by the gate. -/
def impactY (pl : Placements) (id : ℕ) : ℚ :=
  match lookupPl pl id with
  | some p => p.y
  | none => mkRat 1 2

/-- `horizonBuckets` from ImpactFeasibility.tsx: keep high-impact use cases
(impact ≥ 0.5, missing placement counting as center) and split them by
feasibility into the three horizons at thresholds 2/3 and 1/3. -/
def horizonBuckets (useCases : List UseCase) (pl : Placements) : Buckets :=
  let hi := (useCases.filter (fun u => decide (mkRat 1 2 ≤ impactY pl u.id))).map
    (fun u => (u, getPos pl u.id))
  { H1 := (hi.filter (fun up => decide (mkRat 2 3 ≤ up.2.x))).map (fun up => up.1)
    H2 := (hi.filter (fun up => decide (mkRat 1 3 ≤ up.2.x) && decide (up.2.x < mkRat 2 3))).map (fun up => up.1)
    H3 := (hi.filter (fun up => decide (up.2.x < mkRat 1 3))).map (fun up => up.1) }

/-- The feasibility tier of a coordinate: 1, 2 or 3. -/
def tierOf (x : ℚ) : ℕ := if mkRat 2 3 ≤ x then 1 else if mkRat 1 3 ≤ x then 2 else 3

/-- Read a string field, defaulting when absent or wrongly typed. -/
def jsStrOr (v : Option JsonVal) (d : String) : String :=
  match v with
  | some (.str s) => s
  | _ => d

/-- Read a boolean field, defaulting unless it is strictly a boolean. -/
def jsBoolOr (v : Option JsonVal) (d : Bool) : Bool :=
  match v with
  | some (.bool b) => b
  | _ => d

/-- The scores part of `importProject`: when `payload.scores` is a truthy
object, start from defaults and overwrite every one of the 11 keys with
the clamped field value (absent fields coerce to NaN and hence 1), copying
notes only when it is a string; otherwise keep the defaults. -/
def importScores (v : Option JsonVal) : ReadinessScores :=
  match v with
  | some w =>
    if isObjTruthy w then
      { dataMaturity := clamp1to5 (getField w "dataMaturity")
        peopleSkills := clamp1to5 (getField w "peopleSkills")
        processesWorkflows := clamp1to5 (getField w "processesWorkflows")
        governanceRisk := clamp1to5 (getField w "governanceRisk")
        resourcesBudget := clamp1to5 (getField w "resourcesBudget")
        techInfra := clamp1to5 (getField w "techInfra")
        changeReadiness := clamp1to5 (getField w "changeReadiness")
        leadershipAlignment := clamp1to5 (getField w "leadershipAlignment")
        partnerships := clamp1to5 (getField w "partnerships")
        citizenOrientation := clamp1to5 (getField w "citizenOrientation")
        ethicsTrust := clamp1to5 (getField w "ethicsTrust")
        notes := jsStrOr (getField w "notes") "" }
    else defaultReadiness
  | none => defaultReadiness

/-- Whether a key is one the scores importer reads. -/
def knownScoreKey (k : String) : Bool :=
  k = "dataMaturity" || k = "peopleSkills" || k = "processesWorkflows" ||
    k = "governanceRisk" || k = "resourcesBudget" || k = "techInfra" ||
    k = "changeReadiness" || k = "leadershipAlignment" || k = "partnerships" ||
    k = "citizenOrientation" || k = "ethicsTrust" || k = "notes"

/-- The per-entry repair of `importProject`'s use-case map: id from the
position, string/boolean fields defaulted by type, all 8 criterion scores
clamped into `[1,10]`. -/
def mkImportedUC (i : ℕ) (raw : JsonVal) : UseCase :=
  { id := i
    name := jsStrOr (getField raw "name") ("Use Case " ++ natRepr (i + 1))
    description := jsStrOr (getField raw "description") ""
    visible := jsBoolOr (getField raw "visible") true
    scores :=
      { dataReady := clamp1to10 ((getField raw "scores").bind (fun w => getField w "dataReady"))
        techMature := clamp1to10 ((getField raw "scores").bind (fun w => getField w "techMature"))
        lowImplementationCost := clamp1to10 ((getField raw "scores").bind (fun w => getField w "lowImplementationCost"))
        reusable := clamp1to10 ((getField raw "scores").bind (fun w => getField w "reusable"))
        increasesProductivity := clamp1to10 ((getField raw "scores").bind (fun w => getField w "increasesProductivity"))
        reducesCosts := clamp1to10 ((getField raw "scores").bind (fun w => getField w "reducesCosts"))
        benefitsPublic := clamp1to10 ((getField raw "scores").bind (fun w => getField w "benefitsPublic"))
        noRisk := clamp1to10 ((getField raw "scores").bind (fun w => getField w "noRisk")) } }

/-- The fresh pad entry the importer appends for a missing position: note
its id and label come from the pad index `i`, counted from 0. -/
def padEntry (i : ℕ) : JsonVal :=
  .obj [("id", .num (i : ℚ)), ("name", .str ("Use Case " ++ natRepr (i + 1))),
    ("description", .str ""), ("visible", .bool true),
    ("scores", .obj [("dataReady", .num 5), ("techMature", .num 5),
      ("lowImplementationCost", .num 5), ("reusable", .num 5),
      ("increasesProductivity", .num 5), ("reducesCosts", .num 5),
      ("benefitsPublic", .num 5), ("noRisk", .num 5)])]

/-- `incomingUC` of the importer: the raw array (or `[]` when the field is
not an array), right-padded with fresh entries below 8 and truncated to
the first 8 above 8. -/
def incomingOf (v : Option JsonVal) : List JsonVal :=
  let raw : List JsonVal :=
    match v with
    | some (.arr xs) => xs
    | _ => []
  if raw.length < 8 then raw ++ (List.range (8 - raw.length)).map padEntry
  else if 8 < raw.length then raw.take 8
  else raw

/-- `incomingUC.map((u, i) => ...)` with the running position. -/
def mapIdxUC : ℕ → List JsonVal → List UseCase
  | _, [] => []
  | n, x :: xs => mkImportedUC n x :: mapIdxUC (n + 1) xs

/-- The use-cases part of `importProject`. -/
def importUseCases (v : Option JsonVal) : List UseCase := mapIdxUC 0 (incomingOf v)

/-- `Object.keys` enumeration of an array: indices as decimal strings. -/
def enumKeys : ℕ → List JsonVal → List (String × JsonVal)
  | _, [] => []
  | n, x :: xs => (natRepr n, x) :: enumKeys (n + 1) xs

/-- `Object.keys(v)` paired with the values, for truthy objects. -/
def keyVals : JsonVal → List (String × JsonVal)
  | .obj l => l
  | .arr xs => enumKeys 0 xs
  | _ => []

/-- One placements entry of the importer: the key must coerce to an integer
and the value must be a truthy object whose `x`/`y` coerce to non-NaN
numbers; the coordinates are clamped into `[0,1]`. -/
def parsePlacement (kv : String × JsonVal) : Option (ℤ × Point) :=
  match strToNumber kv.1 with
  | none => none
  | some q =>
    if q.den = 1 then
      if isObjTruthy kv.2 then
        match toNumber (getField kv.2 "x"), toNumber (getField kv.2 "y") with
        | some qx, some qy => some (q.num, ⟨max 0 (min 1 qx), max 0 (min 1 qy)⟩)
        | _, _ => none
      else none
    else none

/-- Assignment `record[id] = p` on a map kept sorted by key. -/
def insertPl : List (ℤ × Point) → ℤ → Point → List (ℤ × Point)
  | [], id, p => [(id, p)]
  | (k, v) :: rest, id, p =>
    if id < k then (id, p) :: (k, v) :: rest
    else if id = k then (id, p) :: rest
    else (k, v) :: insertPl rest id p

/-- The placements part of `importProject`: entries failing either check
are silently dropped. -/
def importPlacements (v : Option JsonVal) : List (ℤ × Point) :=
  match v with
  | some w =>
    if isObjTruthy w then
      (keyVals w).foldl (fun acc kv =>
        match parsePlacement kv with
        | some ip => insertPl acc ip.1 ip.2
        | none => acc) []
    else []
  | none => []

/-- `importProject` from the app root: repair the three substructures
independently; the freshly set placements carry no drag marker. -/
def importProject (payload : JsonVal) : ProjState :=
  { scores := importScores (getField payload "scores")
    useCases := importUseCases (getField payload "useCases")
    placements := { entries := importPlacements (getField payload "placements"), activeId := none } }

/-- `JSON.stringify` shape of the readiness scores state. -/
def scoresToJson (sc : ReadinessScores) : JsonVal :=
  .obj [("dataMaturity", .num (sc.dataMaturity : ℚ)), ("peopleSkills", .num (sc.peopleSkills : ℚ)),
    ("processesWorkflows", .num (sc.processesWorkflows : ℚ)), ("governanceRisk", .num (sc.governanceRisk : ℚ)),
    ("resourcesBudget", .num (sc.resourcesBudget : ℚ)), ("techInfra", .num (sc.techInfra : ℚ)),
    ("changeReadiness", .num (sc.changeReadiness : ℚ)), ("leadershipAlignment", .num (sc.leadershipAlignment : ℚ)),
    ("partnerships", .num (sc.partnerships : ℚ)), ("citizenOrientation", .num (sc.citizenOrientation : ℚ)),
    ("ethicsTrust", .num (sc.ethicsTrust : ℚ)), ("notes", .str sc.notes)]

/-- `JSON.stringify` shape of one criterion-scores record. -/
def criteriaToJson (s : CriteriaScores) : JsonVal :=
  .obj [("dataReady", .num (s.dataReady : ℚ)), ("techMature", .num (s.techMature : ℚ)),
    ("lowImplementationCost", .num (s.lowImplementationCost : ℚ)), ("reusable", .num (s.reusable : ℚ)),
    ("increasesProductivity", .num (s.increasesProductivity : ℚ)), ("reducesCosts", .num (s.reducesCosts : ℚ)),
    ("benefitsPublic", .num (s.benefitsPublic : ℚ)), ("noRisk", .num (s.noRisk : ℚ))]

/-- `JSON.stringify` shape of one use case. -/
def ucToJson (u : UseCase) : JsonVal :=
  .obj [("id", .num (u.id : ℚ)), ("name", .str u.name), ("description", .str u.description),
    ("visible", .bool u.visible), ("scores", criteriaToJson u.scores)]

/-- `JSON.stringify` shape of the placements state: the id-keyed entries
(ascending, as JS enumerates integer-like keys) and then, when present,
the `__activeId` drag marker — `exportProject` performs no filtering. -/
def placementsToJson (pl : Placements) : JsonVal :=
  .obj ((pl.entries.map (fun kv =>
      (intKeyStr kv.1, JsonVal.obj [("x", .num kv.2.x), ("y", .num kv.2.y)]))) ++
    (match pl.activeId with
     | some i => [("__activeId", JsonVal.num (i : ℚ))]
     | none => []))

/-- `exportProject` from the app root, with the `new Date().toISOString()`
timestamp passed in as `ts`. -/
def exportProject (ts : String) (st : ProjState) : JsonVal :=
  .obj [("version", .num 1), ("exportedAt", .str ts), ("scores", scoresToJson st.scores),
    ("useCases", .arr (st.useCases.map ucToJson)), ("placements", placementsToJson st.placements)]

/-- All 8 criterion scores lie in `[1,10]`. -/
def scoresIn1to10 (s : CriteriaScores) : Bool :=
  decide (1 ≤ s.dataReady ∧ s.dataReady ≤ 10 ∧
    1 ≤ s.techMature ∧ s.techMature ≤ 10 ∧
    1 ≤ s.lowImplementationCost ∧ s.lowImplementationCost ≤ 10 ∧
    1 ≤ s.reusable ∧ s.reusable ≤ 10 ∧
    1 ≤ s.increasesProductivity ∧ s.increasesProductivity ≤ 10 ∧
    1 ≤ s.reducesCosts ∧ s.reducesCosts ≤ 10 ∧
    1 ≤ s.benefitsPublic ∧ s.benefitsPublic ≤ 10 ∧
    1 ≤ s.noRisk ∧ s.noRisk ≤ 10)

/-- All 11 readiness dimensions lie in `[1,5]`. -/
def scInRange (sc : ReadinessScores) : Bool :=
  decide (1 ≤ sc.dataMaturity ∧ sc.dataMaturity ≤ 5 ∧
    1 ≤ sc.peopleSkills ∧ sc.peopleSkills ≤ 5 ∧
    1 ≤ sc.processesWorkflows ∧ sc.processesWorkflows ≤ 5 ∧
    1 ≤ sc.governanceRisk ∧ sc.governanceRisk ≤ 5 ∧
    1 ≤ sc.resourcesBudget ∧ sc.resourcesBudget ≤ 5 ∧
    1 ≤ sc.techInfra ∧ sc.techInfra ≤ 5 ∧
    1 ≤ sc.changeReadiness ∧ sc.changeReadiness ≤ 5 ∧
    1 ≤ sc.leadershipAlignment ∧ sc.leadershipAlignment ≤ 5 ∧
    1 ≤ sc.partnerships ∧ sc.partnerships ≤ 5 ∧
    1 ≤ sc.citizenOrientation ∧ sc.citizenOrientation ≤ 5 ∧
    1 ≤ sc.ethicsTrust ∧ sc.ethicsTrust ≤ 5)

/-- Use-case list in import-normal form when ids count up from `n`:
positional ids and in-range scores. -/
def canonicalFrom : ℕ → List UseCase → Bool
  | _, [] => true
  | n, u :: rest => (u.id == n) && scoresIn1to10 u.scores && canonicalFrom (n + 1) rest

/-- Both coordinates in `[0,1]`. -/
def pointIn01 (p : Point) : Bool :=
  decide (0 ≤ p.x ∧ p.x ≤ 1 ∧ 0 ≤ p.y ∧ p.y ≤ 1)

/-- Placement entries with strictly ascending keys all at least `lo`, and
in-range coordinates. -/
def sortedKeysFrom : ℤ → List (ℤ × Point) → Bool
  | _, [] => true
  | lo, (k, p) :: rest => decide (lo ≤ k) && pointIn01 p && sortedKeysFrom (k + 1) rest

/-- Placements in import-normal form: non-negative strictly ascending keys,
coordinates in `[0,1]`. -/
def canonicalPlacements (pls : List (ℤ × Point)) : Bool := sortedKeysFrom 0 pls

lemma mkRat_half : (mkRat 1 2 : ℚ) = 1/2 := by norm_num [Rat.mkRat_eq_div]

lemma mkRat_third : (mkRat 1 3 : ℚ) = 1/3 := by norm_num [Rat.mkRat_eq_div]

lemma mkRat_twoThirds : (mkRat 2 3 : ℚ) = 2/3 := by norm_num [Rat.mkRat_eq_div]

lemma jsRound_eq (q : ℚ) : jsRound q = ⌊q + 1/2⌋ := by
  have hdpos : (0 : ℚ) < (q.den : ℚ) := by
    exact_mod_cast q.den_pos
  have hd0 : ((q.den : ℚ)) ≠ 0 := ne_of_gt hdpos
  have hnum : (q.num : ℚ) = q * (q.den : ℚ) := by
    have h := Rat.num_div_den q
    rw [div_eq_iff hd0] at h
    exact h
  have h1 : jsRound q = ⌊(Rat.divInt (2 * q.num + (q.den : ℤ)) (2 * (q.den : ℤ)) : ℚ)⌋ := rfl
  rw [h1]
  congr 1
  rw [Rat.divInt_eq_div]
  have h2d : ((2 * (q.den : ℤ) : ℤ) : ℚ) ≠ 0 := by
    push_cast
    positivity
  rw [div_eq_iff h2d]
  push_cast
  nlinarith [hnum]

lemma jsRound_intCast (k : ℤ) : jsRound ((k : ℚ)) = k := by
  rw [jsRound_eq, add_comm, Int.floor_add_int]
  norm_num

lemma jsRound_near (q : ℚ) : |(jsRound q : ℚ) - q| ≤ 1/2 := by
  rw [jsRound_eq]
  have h1 := Int.floor_le (q + 1/2)
  have h2 := Int.lt_floor_add_one (q + 1/2)
  rw [abs_le]
  constructor <;> linarith

lemma averageScore_eq (u : UseCase) :
    averageScore u = jsRound ((sumScores u.scores : ℚ) / 8) := by
  unfold averageScore
  congr 1
  rw [Rat.divInt_eq_div]
  norm_num

/-- C4 (corrected): the serializer clamps (`clamp1to5`, `clamp1to10`) and
the readiness clamp (`clamp15`) map NaN to the range minimum 1 and always
produce a value inside their range, but the spider-chart criterion clamp
`clamp01to10` maps NaN to 0, which is below its range minimum. -/
theorem clamp_nan_and_ranges :
    clamp15 none = 1 ∧ clamp1to5 none = 1 ∧ clamp1to10 none = 1 ∧ clamp01to10 none = 0 ∧
      (∀ v : Option JsonVal, 1 ≤ clamp1to5 v ∧ clamp1to5 v ≤ 5) ∧
      (∀ v : Option JsonVal, 1 ≤ clamp1to10 v ∧ clamp1to10 v ≤ 10) ∧
      (∀ q : ℚ, 1 ≤ clamp15 (some q) ∧ clamp15 (some q) ≤ 5) ∧
      (∀ q : ℚ, 1 ≤ clamp01to10 (some q) ∧ clamp01to10 (some q) ≤ 10) := by
  refine ⟨rfl, rfl, rfl, rfl, ?_, ?_, ?_, ?_⟩
  · intro v
    unfold clamp1to5
    rcases toNumber v with _ | q
    · exact ⟨le_refl 1, by norm_num⟩
    · exact ⟨le_max_left 1 _, max_le (by norm_num) (min_le_left 5 _)⟩
  · intro v
    unfold clamp1to10
    rcases toNumber v with _ | q
    · exact ⟨le_refl 1, by norm_num⟩
    · exact ⟨le_max_left 1 _, max_le (by norm_num) (min_le_left 10 _)⟩
  · intro q
    exact ⟨le_max_left 1 _, max_le (by norm_num) (min_le_left 5 _)⟩
  · intro q
    exact ⟨le_max_left 1 _, max_le (by norm_num) (min_le_left 10 _)⟩

/-- C4 counterexample: `clamp01to10` applied to NaN does not return the
range minimum 1 (it returns 0). -/
theorem clamp01to10_nan_cx : ¬ (clamp01to10 none = 1) := by decide

/-- C5 (corrected): `averageScore` is the equally-weighted arithmetic mean
of the 8 criterion values rounded to the nearest integer (not the exact
rational mean); it is within 1/2 of the exact mean, and when all 8
criteria equal an integer `k` it equals `k` exactly. -/
theorem averageScore_rounded_mean (u : UseCase) (k : ℤ) :
    averageScore u = jsRound ((sumScores u.scores : ℚ) / 8) ∧
      |(averageScore u : ℚ) - (sumScores u.scores : ℚ) / 8| ≤ 1/2 ∧
      averageScore { u with scores := ⟨k, k, k, k, k, k, k, k⟩ } = k := by
  refine ⟨averageScore_eq u, ?_, ?_⟩
  · rw [averageScore_eq u]
    exact jsRound_near _
  · rw [averageScore_eq]
    have hs : sumScores ⟨k, k, k, k, k, k, k, k⟩ = 8 * k := by
      simp [sumScores]
      ring
    rw [hs]
    have h8 : ((8 * k : ℤ) : ℚ) / 8 = (k : ℚ) := by
      push_cast
      ring
    rw [h8, jsRound_intCast]

/-- Witness use case for the C5 counterexample: seven criteria at 5 and
one at 6, whose exact mean 41/8 is not an integer. -/
def c5cx : UseCase := ⟨0, "", "", true, ⟨5, 5, 5, 5, 5, 5, 5, 6⟩⟩

/-- C5 counterexample: on `c5cx` the implementation returns 5 while the
exact rational mean is 41/8, so the average is not the exact mean. -/
theorem averageScore_not_exact_cx : ¬ ((averageScore c5cx : ℚ) = specAverage c5cx) := by
  have h1 : averageScore c5cx = 5 := by decide
  rw [h1]
  simp only [specAverage, c5cx, sumScores]
  norm_num

/-- The 12 field equations describing `importScores` on a truthy object:
every known key is overwritten with the clamp of its field value (with
absent fields coercing to NaN and hence 1), and notes is copied only when
it is a string. -/
def importScoresSpec (v : JsonVal) : Prop :=
  (importScores (some v)).dataMaturity = clamp1to5 (getField v "dataMaturity") ∧
    (importScores (some v)).peopleSkills = clamp1to5 (getField v "peopleSkills") ∧
    (importScores (some v)).processesWorkflows = clamp1to5 (getField v "processesWorkflows") ∧
    (importScores (some v)).governanceRisk = clamp1to5 (getField v "governanceRisk") ∧
    (importScores (some v)).resourcesBudget = clamp1to5 (getField v "resourcesBudget") ∧
    (importScores (some v)).techInfra = clamp1to5 (getField v "techInfra") ∧
    (importScores (some v)).changeReadiness = clamp1to5 (getField v "changeReadiness") ∧
    (importScores (some v)).leadershipAlignment = clamp1to5 (getField v "leadershipAlignment") ∧
    (importScores (some v)).partnerships = clamp1to5 (getField v "partnerships") ∧
    (importScores (some v)).citizenOrientation = clamp1to5 (getField v "citizenOrientation") ∧
    (importScores (some v)).ethicsTrust = clamp1to5 (getField v "ethicsTrust") ∧
    (importScores (some v)).notes = jsStrOr (getField v "notes") ""

/-- C3 (corrected): import starts from full defaults and keeps them when
the scores field is absent or not a truthy object; but when the scores
object is present, all 11 keys are overwritten unconditionally (an
omitted key coerces to NaN and clamps to 1, not the default 3); notes is
copied only when it is a string; keys the importer does not read never
affect the result. -/
theorem importScores_overwrites_all (v : JsonVal) (l : List (String × JsonVal))
    (k : String) (x : JsonVal) (hk : knownScoreKey k = false) :
    importScores none = defaultReadiness ∧
      (isObjTruthy v = false → importScores (some v) = defaultReadiness) ∧
      (isObjTruthy v = true → importScoresSpec v) ∧
      importScores (some (.obj ((k, x) :: l))) = importScores (some (.obj l)) := by
  simp only [knownScoreKey, Bool.or_eq_false_iff, decide_eq_false_iff_not] at hk
  obtain ⟨⟨⟨⟨⟨⟨⟨⟨⟨⟨⟨h1, h2⟩, h3⟩, h4⟩, h5⟩, h6⟩, h7⟩, h8⟩, h9⟩, h10⟩, h11⟩, h12⟩ := hk
  refine ⟨rfl, ?_, ?_, ?_⟩
  · intro hv
    simp [importScores, hv]
  · intro hv
    simp [importScoresSpec, importScores, hv]
  · simp only [importScores, isObjTruthy, getField, lookupField, h1, h2, h3, h4, h5, h6, h7, h8,
      h9, h10, h11, h12, if_false, if_true]

/-- C3 witness: the theorem applied at the empty object with an unknown
key prepended to an empty field list. -/
theorem importScores_overwrites_all_witness :
    importScores none = defaultReadiness ∧
      (isObjTruthy (.obj []) = false → importScores (some (.obj [])) = defaultReadiness) ∧
      (isObjTruthy (.obj []) = true → importScoresSpec (.obj [])) ∧
      importScores (some (.obj [("zz", .null)])) = importScores (some (.obj [])) :=
  importScores_overwrites_all (.obj []) [] "zz" .null (by decide)

/-- C3 counterexample: a document whose scores object is present but empty
gives `dataMaturity` 1 after import, not the default 3 the claim asserts. -/
theorem importScores_missing_key_cx :
    ¬ ((importProject (.obj [("scores", .obj [])])).scores.dataMaturity = 3) := by decide

lemma insertDesc_length (p : UseCase × ℤ) (l : List (UseCase × ℤ)) :
    (insertDesc p l).length = l.length + 1 := by
  induction l with
  | nil => rfl
  | cons q rest ih =>
    unfold insertDesc
    by_cases h : q.2 ≤ p.2
    · simp [h]
    · simp [h, ih]

lemma insertDesc_perm (p : UseCase × ℤ) (l : List (UseCase × ℤ)) :
    (insertDesc p l).Perm (p :: l) := by
  induction l with
  | nil => exact List.Perm.refl _
  | cons q rest ih =>
    unfold insertDesc
    by_cases h : q.2 ≤ p.2
    · simp [h]
    · simp only [h, if_false]
      exact ((ih.cons q).trans (List.Perm.swap p q rest))

lemma isortDesc_perm (l : List (UseCase × ℤ)) : (isortDesc l).Perm l := by
  induction l with
  | nil => exact List.Perm.refl _
  | cons p rest ih =>
    exact (insertDesc_perm p (isortDesc rest)).trans (ih.cons p)

lemma insertDesc_pairwise (p : UseCase × ℤ) (l : List (UseCase × ℤ))
    (h : List.Pairwise (fun a b : UseCase × ℤ => b.2 ≤ a.2) l) :
    List.Pairwise (fun a b : UseCase × ℤ => b.2 ≤ a.2) (insertDesc p l) := by
  induction l with
  | nil => simp [insertDesc]
  | cons q rest ih =>
    rw [List.pairwise_cons] at h
    unfold insertDesc
    by_cases hle : q.2 ≤ p.2
    · rw [if_pos hle, List.pairwise_cons]
      constructor
      · intro b hb
        rcases List.mem_cons.1 hb with hb1 | hb2
        · exact hb1 ▸ hle
        · exact le_trans (h.1 b hb2) hle
      · exact List.pairwise_cons.2 h
    · rw [if_neg hle, List.pairwise_cons]
      refine ⟨?_, ih h.2⟩
      intro b hb
      rcases List.mem_cons.1 ((insertDesc_perm p rest).mem_iff.1 hb) with hb1 | hb2
      · exact hb1 ▸ le_of_lt (lt_of_not_le hle)
      · exact h.1 b hb2

lemma isortDesc_pairwise (l : List (UseCase × ℤ)) :
    List.Pairwise (fun a b : UseCase × ℤ => b.2 ≤ a.2) (isortDesc l) := by
  induction l with
  | nil => simp [isortDesc]
  | cons p rest ih => exact insertDesc_pairwise p (isortDesc rest) ih

lemma insertDesc_filter_eq (p : UseCase × ℤ) (l : List (UseCase × ℤ)) (a : ℤ) (hp : p.2 = a) :
    (insertDesc p l).filter (fun x => decide (x.2 = a)) =
      p :: l.filter (fun x => decide (x.2 = a)) := by
  induction l with
  | nil => simp [insertDesc, List.filter_cons, hp]
  | cons q rest ih =>
    unfold insertDesc
    by_cases hle : q.2 ≤ p.2
    · rw [if_pos hle]
      simp [List.filter_cons, hp]
    · rw [if_neg hle]
      have hq : ¬ (q.2 = a) := by
        intro hqa
        exact hle (le_of_eq (by rw [hp, hqa]))
      simp [List.filter_cons, hq, ih]

lemma insertDesc_filter_ne (p : UseCase × ℤ) (l : List (UseCase × ℤ)) (a : ℤ) (hp : ¬ (p.2 = a)) :
    (insertDesc p l).filter (fun x => decide (x.2 = a)) =
      l.filter (fun x => decide (x.2 = a)) := by
  induction l with
  | nil => simp [insertDesc, List.filter_cons, hp]
  | cons q rest ih =>
    unfold insertDesc
    by_cases hle : q.2 ≤ p.2
    · rw [if_pos hle]
      simp [List.filter_cons, hp]
    · rw [if_neg hle]
      simp [List.filter_cons, ih]

lemma isortDesc_stable (l : List (UseCase × ℤ)) (a : ℤ) :
    (isortDesc l).filter (fun x => decide (x.2 = a)) =
      l.filter (fun x => decide (x.2 = a)) := by
  induction l with
  | nil => rfl
  | cons p rest ih =>
    unfold isortDesc
    by_cases hp : p.2 = a
    · rw [insertDesc_filter_eq p _ a hp, ih]
      simp [List.filter, hp]
    · rw [insertDesc_filter_ne p _ a hp, ih]
      simp [List.filter, hp]

lemma rankGo_length (n : ℕ) (l : List (UseCase × ℤ)) : (rankGo n l).length = l.length := by
  induction l generalizing n with
  | nil => rfl
  | cons p rest ih => simp [rankGo, ih]

lemma rankGo_ranks (n : ℕ) (l : List (UseCase × ℤ)) :
    (rankGo n l).map (fun e => e.rank) = List.range' (n + 1) l.length := by
  induction l generalizing n with
  | nil => rfl
  | cons p rest ih => simp [rankGo, List.range', ih]

lemma rankGo_avgs (n : ℕ) (l : List (UseCase × ℤ)) :
    (rankGo n l).map (fun e => e.avg) = l.map (fun p => p.2) := by
  induction l generalizing n with
  | nil => rfl
  | cons p rest ih => simp [rankGo, ih]

/-- C7 (confirmed): `rank` returns one entry per use case, assigns the
ranks exactly `1..N` down the sequence (ties get distinct consecutive
ranks), the sequence is sorted by non-increasing average, and the
underlying stable sort both preserves the original relative order of
equal-average entries (its filter at every average value equals the
input's filter) and is a permutation of the input. -/
theorem rank_sorted_stable_dense (ucs : List UseCase) :
    (rank ucs).length = ucs.length ∧
      (rank ucs).map (fun e => e.rank) = List.range' 1 ucs.length ∧
      List.Pairwise (fun a b : RankEntry => b.avg ≤ a.avg) (rank ucs) ∧
      (∀ a : ℤ,
        (isortDesc (ucs.map (fun u => (u, averageScore u)))).filter (fun p => decide (p.2 = a)) =
          (ucs.map (fun u => (u, averageScore u))).filter (fun p => decide (p.2 = a))) ∧
      (isortDesc (ucs.map (fun u => (u, averageScore u)))).Perm
        (ucs.map (fun u => (u, averageScore u))) := by
  have hlen : (isortDesc (ucs.map (fun u => (u, averageScore u)))).length = ucs.length := by
    rw [(isortDesc_perm _).length_eq, List.length_map]
  refine ⟨?_, ?_, ?_, fun a => isortDesc_stable _ a, isortDesc_perm _⟩
  · rw [rank, rankGo_length, hlen]
  · rw [rank, rankGo_ranks, hlen]
  · have hs := isortDesc_pairwise (ucs.map (fun u => (u, averageScore u)))
    have hmap : List.Pairwise (fun x y : ℤ => y ≤ x)
        ((rank ucs).map (fun e => e.avg)) := by
      rw [rank, rankGo_avgs]
      exact (List.pairwise_map).2 hs
    exact (List.pairwise_map).1 hmap

lemma map_filter_pair (l : List UseCase) (f : UseCase → Point) (p : UseCase × Point → Bool) :
    ((l.map (fun u => (u, f u))).filter p).map (fun up => up.1) =
      l.filter (fun u => p (u, f u)) := by
  induction l with
  | nil => rfl
  | cons a rest ih =>
    simp only [List.map_cons, List.filter]
    by_cases h : p (a, f a)
    · simp [h, ih]
    · simp [h, ih]

lemma hb_H1_eq (ucs : List UseCase) (pl : Placements) :
    (horizonBuckets ucs pl).H1 =
      (ucs.filter (fun u => decide (mkRat 1 2 ≤ impactY pl u.id))).filter
        (fun u => decide (mkRat 2 3 ≤ (getPos pl u.id).x)) := by
  unfold horizonBuckets
  exact map_filter_pair _ _ _

lemma hb_H2_eq (ucs : List UseCase) (pl : Placements) :
    (horizonBuckets ucs pl).H2 =
      (ucs.filter (fun u => decide (mkRat 1 2 ≤ impactY pl u.id))).filter
        (fun u => decide (mkRat 1 3 ≤ (getPos pl u.id).x) && decide ((getPos pl u.id).x < mkRat 2 3)) := by
  unfold horizonBuckets
  exact map_filter_pair _ _ _

lemma hb_H3_eq (ucs : List UseCase) (pl : Placements) :
    (horizonBuckets ucs pl).H3 =
      (ucs.filter (fun u => decide (mkRat 1 2 ≤ impactY pl u.id))).filter
        (fun u => decide ((getPos pl u.id).x < mkRat 1 3)) := by
  unfold horizonBuckets
  exact map_filter_pair _ _ _

lemma mem_H1_iff (ucs : List UseCase) (pl : Placements) (u : UseCase) :
    u ∈ (horizonBuckets ucs pl).H1 ↔
      u ∈ ucs ∧ 1/2 ≤ impactY pl u.id ∧ 2/3 ≤ (getPos pl u.id).x := by
  rw [hb_H1_eq, List.mem_filter, List.mem_filter, mkRat_half, mkRat_twoThirds]
  simp [and_assoc]

lemma mem_H2_iff (ucs : List UseCase) (pl : Placements) (u : UseCase) :
    u ∈ (horizonBuckets ucs pl).H2 ↔
      u ∈ ucs ∧ 1/2 ≤ impactY pl u.id ∧ 1/3 ≤ (getPos pl u.id).x ∧ (getPos pl u.id).x < 2/3 := by
  rw [hb_H2_eq, List.mem_filter, List.mem_filter, mkRat_half, mkRat_third, mkRat_twoThirds]
  simp [and_assoc]

lemma mem_H3_iff (ucs : List UseCase) (pl : Placements) (u : UseCase) :
    u ∈ (horizonBuckets ucs pl).H3 ↔
      u ∈ ucs ∧ 1/2 ≤ impactY pl u.id ∧ (getPos pl u.id).x < 1/3 := by
  rw [hb_H3_eq, List.mem_filter, List.mem_filter, mkRat_half, mkRat_third]
  simp [and_assoc]

lemma tierOf_eq_one_iff (x : ℚ) : tierOf x = 1 ↔ 2/3 ≤ x := by
  unfold tierOf
  rw [mkRat_twoThirds, mkRat_third]
  by_cases h1 : (2/3 : ℚ) ≤ x
  · rw [if_pos h1]
    exact iff_of_true rfl h1
  · rw [if_neg h1]
    by_cases h2 : (1/3 : ℚ) ≤ x
    · rw [if_pos h2]
      exact iff_of_false (by norm_num) h1
    · rw [if_neg h2]
      exact iff_of_false (by norm_num) h1

lemma tierOf_eq_two_iff (x : ℚ) : tierOf x = 2 ↔ 1/3 ≤ x ∧ x < 2/3 := by
  unfold tierOf
  rw [mkRat_twoThirds, mkRat_third]
  by_cases h1 : (2/3 : ℚ) ≤ x
  · rw [if_pos h1]
    exact iff_of_false (by norm_num) (fun h => not_le.2 h.2 h1)
  · rw [if_neg h1]
    by_cases h2 : (1/3 : ℚ) ≤ x
    · rw [if_pos h2]
      exact iff_of_true rfl ⟨h2, not_le.1 h1⟩
    · rw [if_neg h2]
      exact iff_of_false (by norm_num) (fun h => h2 h.1)

lemma tierOf_eq_three_iff (x : ℚ) : tierOf x = 3 ↔ x < 1/3 := by
  unfold tierOf
  rw [mkRat_twoThirds, mkRat_third]
  by_cases h1 : (2/3 : ℚ) ≤ x
  · rw [if_pos h1]
    exact iff_of_false (by norm_num)
      (fun h => not_le.2 (lt_of_lt_of_le h (by norm_num)) h1)
  · rw [if_neg h1]
    by_cases h2 : (1/3 : ℚ) ≤ x
    · rw [if_pos h2]
      exact iff_of_false (by norm_num) (not_lt.2 h2)
    · rw [if_neg h2]
      exact iff_of_true rfl (not_le.1 h2)

/-- C1 (confirmed): `horizonBuckets` resolves a missing placement to the
center `(0.5, 0.5)`; a use case lands in a bucket exactly when it passes
the impact ≥ 0.5 gate and its feasibility falls in that bucket's tier;
the tiers at thresholds 2/3 and 1/3 are mutually exclusive (each
coordinate has exactly one tier) and exhaustive; each bucket is a sublist
of the input, preserving original relative order; and the computation is
a pure function, identical on identical inputs. -/
theorem horizonBuckets_partition_spec (ucs : List UseCase) (pl : Placements) :
    (∀ id : ℕ, getPos pl id = (lookupPl pl id).getD ⟨1/2, 1/2⟩) ∧
      (∀ x : ℚ, (tierOf x = 1 ↔ 2/3 ≤ x) ∧ (tierOf x = 2 ↔ 1/3 ≤ x ∧ x < 2/3) ∧
        (tierOf x = 3 ↔ x < 1/3)) ∧
      (∀ x : ℚ, tierOf x = 1 ∨ tierOf x = 2 ∨ tierOf x = 3) ∧
      (∀ u : UseCase, u ∈ (horizonBuckets ucs pl).H1 ↔
        u ∈ ucs ∧ 1/2 ≤ impactY pl u.id ∧ tierOf (getPos pl u.id).x = 1) ∧
      (∀ u : UseCase, u ∈ (horizonBuckets ucs pl).H2 ↔
        u ∈ ucs ∧ 1/2 ≤ impactY pl u.id ∧ tierOf (getPos pl u.id).x = 2) ∧
      (∀ u : UseCase, u ∈ (horizonBuckets ucs pl).H3 ↔
        u ∈ ucs ∧ 1/2 ≤ impactY pl u.id ∧ tierOf (getPos pl u.id).x = 3) ∧
      (horizonBuckets ucs pl).H1.Sublist ucs ∧ (horizonBuckets ucs pl).H2.Sublist ucs ∧
      (horizonBuckets ucs pl).H3.Sublist ucs ∧
      horizonBuckets ucs pl = horizonBuckets ucs pl := by
  refine ⟨?_, ?_, ?_, ?_, ?_, ?_, ?_, ?_, ?_, rfl⟩
  · intro id
    rw [getPos, mkRat_half]
  · intro x
    exact ⟨tierOf_eq_one_iff x, tierOf_eq_two_iff x, tierOf_eq_three_iff x⟩
  · intro x
    unfold tierOf
    by_cases h1 : mkRat 2 3 ≤ x
    · simp [h1]
    · by_cases h2 : mkRat 1 3 ≤ x <;> simp [h1, h2]
  · intro u
    rw [mem_H1_iff, tierOf_eq_one_iff]
  · intro u
    rw [mem_H2_iff, tierOf_eq_two_iff]
  · intro u
    rw [mem_H3_iff, tierOf_eq_three_iff]
  · rw [hb_H1_eq]
    exact (List.filter_sublist _).trans (List.filter_sublist _)
  · rw [hb_H2_eq]
    exact (List.filter_sublist _).trans (List.filter_sublist _)
  · rw [hb_H3_eq]
    exact (List.filter_sublist _).trans (List.filter_sublist _)

/-- The empty placements map (no entries, no drag marker). -/
def emptyPlacements : Placements := ⟨[], none⟩

/-- C10 (confirmed): a use case with no entry in the placements map passes
the impact gate with the default center and lands in Horizon 2; with the
empty placements map every use case lands in Horizon 2 and Horizons 1 and
3 are empty. -/
theorem missing_placement_horizon2 (ucs : List UseCase) (pl : Placements) (u : UseCase)
    (hu : u ∈ ucs) (hm : lookupPl pl u.id = none) :
    u ∈ (horizonBuckets ucs pl).H2 ∧ horizonBuckets ucs emptyPlacements = ⟨[], ucs, []⟩ := by
  constructor
  · rw [mem_H2_iff]
    refine ⟨hu, ?_, ?_, ?_⟩
    · rw [impactY, hm]
      rw [mkRat_half]
    · rw [getPos, hm, Option.getD_none]
      norm_num
    · rw [getPos, hm, Option.getD_none]
      norm_num
  · have hc0 : ∀ w : UseCase, decide (mkRat 1 2 ≤ impactY emptyPlacements w.id) = true := by
      intro w
      show decide ((mkRat 1 2 : ℚ) ≤ mkRat 1 2) = true
      decide
    have hc1 : ∀ w : UseCase, decide (mkRat 2 3 ≤ (getPos emptyPlacements w.id).x) = false := by
      intro w
      show decide ((mkRat 2 3 : ℚ) ≤ mkRat 1 2) = false
      decide
    have hc2 : ∀ w : UseCase, (decide (mkRat 1 3 ≤ (getPos emptyPlacements w.id).x) &&
        decide ((getPos emptyPlacements w.id).x < mkRat 2 3)) = true := by
      intro w
      show (decide ((mkRat 1 3 : ℚ) ≤ mkRat 1 2) && decide ((mkRat 1 2 : ℚ) < mkRat 2 3)) = true
      decide
    have hc3 : ∀ w : UseCase, decide ((getPos emptyPlacements w.id).x < mkRat 1 3) = false := by
      intro w
      show decide ((mkRat 1 2 : ℚ) < mkRat 1 3) = false
      decide
    have hkept : ucs.filter (fun w => decide (mkRat 1 2 ≤ impactY emptyPlacements w.id)) = ucs := by
      rw [List.filter_congr (fun w _ => hc0 w)]
      simp
    have h1 : (horizonBuckets ucs emptyPlacements).H1 = [] := by
      rw [hb_H1_eq, hkept]
      rw [List.filter_congr (fun w _ => hc1 w)]
      simp
    have h2 : (horizonBuckets ucs emptyPlacements).H2 = ucs := by
      rw [hb_H2_eq, hkept]
      rw [List.filter_congr (fun w _ => hc2 w)]
      simp
    have h3 : (horizonBuckets ucs emptyPlacements).H3 = [] := by
      rw [hb_H3_eq, hkept]
      rw [List.filter_congr (fun w _ => hc3 w)]
      simp
    calc horizonBuckets ucs emptyPlacements
        = ⟨(horizonBuckets ucs emptyPlacements).H1, (horizonBuckets ucs emptyPlacements).H2,
            (horizonBuckets ucs emptyPlacements).H3⟩ := rfl
      _ = ⟨[], ucs, []⟩ := by rw [h1, h2, h3]

/-- Witness use case for C10's witness instance. -/
def c10uc : UseCase := ⟨0, "A", "", true, ⟨5, 5, 5, 5, 5, 5, 5, 5⟩⟩

/-- C10 witness: the theorem applied to a singleton list and the empty
placements map. -/
theorem missing_placement_horizon2_witness :
    c10uc ∈ (horizonBuckets [c10uc] emptyPlacements).H2 ∧
      horizonBuckets [c10uc] emptyPlacements = ⟨[], [c10uc], []⟩ :=
  missing_placement_horizon2 [c10uc] emptyPlacements c10uc (by simp) rfl

lemma one_le_clamp1to10 (v : Option JsonVal) : 1 ≤ clamp1to10 v := by
  unfold clamp1to10
  rcases toNumber v with _ | q
  · exact le_refl 1
  · exact le_max_left 1 _

lemma clamp1to10_le_ten (v : Option JsonVal) : clamp1to10 v ≤ 10 := by
  unfold clamp1to10
  rcases toNumber v with _ | q
  · norm_num
  · exact max_le (by norm_num) (min_le_left 10 _)

lemma one_le_clamp1to5 (v : Option JsonVal) : 1 ≤ clamp1to5 v := by
  unfold clamp1to5
  rcases toNumber v with _ | q
  · exact le_refl 1
  · exact le_max_left 1 _

lemma clamp1to5_le_five (v : Option JsonVal) : clamp1to5 v ≤ 5 := by
  unfold clamp1to5
  rcases toNumber v with _ | q
  · norm_num
  · exact max_le (by norm_num) (min_le_left 5 _)

lemma scoresIn1to10_mkImportedUC (i : ℕ) (raw : JsonVal) :
    scoresIn1to10 (mkImportedUC i raw).scores = true := by
  rw [scoresIn1to10, decide_eq_true_eq]
  exact ⟨one_le_clamp1to10 _, clamp1to10_le_ten _, one_le_clamp1to10 _, clamp1to10_le_ten _,
    one_le_clamp1to10 _, clamp1to10_le_ten _, one_le_clamp1to10 _, clamp1to10_le_ten _,
    one_le_clamp1to10 _, clamp1to10_le_ten _, one_le_clamp1to10 _, clamp1to10_le_ten _,
    one_le_clamp1to10 _, clamp1to10_le_ten _, one_le_clamp1to10 _, clamp1to10_le_ten _⟩

lemma incomingOf_length (v : Option JsonVal) : (incomingOf v).length = 8 := by
  unfold incomingOf
  by_cases h1 : (match v with
    | some (.arr xs) => xs
    | _ => ([] : List JsonVal)).length < 8
  · rw [if_pos h1]
    simp only [List.length_append, List.length_map, List.length_range]
    omega
  · rw [if_neg h1]
    by_cases h2 : 8 < (match v with
      | some (.arr xs) => xs
      | _ => ([] : List JsonVal)).length
    · rw [if_pos h2]
      simp only [List.length_take]
      omega
    · rw [if_neg h2]
      omega

lemma mapIdxUC_length (n : ℕ) (l : List JsonVal) : (mapIdxUC n l).length = l.length := by
  induction l generalizing n with
  | nil => rfl
  | cons x xs ih => simp [mapIdxUC, ih]

/-- Default use case used only as the fallback of `List.getD`. -/
def dfltUC : UseCase := ⟨0, "", "", true, ⟨1, 1, 1, 1, 1, 1, 1, 1⟩⟩

lemma mapIdxUC_getD (l : List JsonVal) (n i : ℕ) (h : i < l.length) :
    (mapIdxUC n l).getD i dfltUC = mkImportedUC (n + i) (l.getD i .null) := by
  induction l generalizing n i with
  | nil => exact absurd h (by simp)
  | cons x xs ih =>
    cases i with
    | zero => simp [mapIdxUC]
    | succ j =>
      have hj : j < xs.length := by
        simpa using Nat.lt_of_succ_lt_succ h
      have := ih (n + 1) j hj
      simpa [mapIdxUC, Nat.add_assoc, Nat.add_comm 1 j] using this

/-- C2 (confirmed): for every input document the imported use-case list has
exactly 8 entries (the repaired incoming array itself has length 8 after
right-padding or truncation), every entry's id equals its position, every
criterion score lies in `[1,10]`, and each entry is exactly the repair
`mkImportedUC` of the corresponding repaired incoming element — which
defaults name/description/visible by type and clamps all 8 scores. -/
theorem importProject_useCases_shape (payload : JsonVal) :
    (importProject payload).useCases.length = 8 ∧
      (incomingOf (getField payload "useCases")).length = 8 ∧
      (∀ i : Fin 8, ((importProject payload).useCases.getD i.val dfltUC).id = i.val) ∧
      (∀ i : Fin 8,
        scoresIn1to10 ((importProject payload).useCases.getD i.val dfltUC).scores = true) ∧
      (∀ i : Fin 8, (importProject payload).useCases.getD i.val dfltUC =
        mkImportedUC i.val ((incomingOf (getField payload "useCases")).getD i.val .null)) := by
  have hinc : (incomingOf (getField payload "useCases")).length = 8 := incomingOf_length _
  have hlen : (importProject payload).useCases.length = 8 := by
    show (importUseCases (getField payload "useCases")).length = 8
    rw [importUseCases, mapIdxUC_length, hinc]
  have hget : ∀ i : Fin 8, (importProject payload).useCases.getD i.val dfltUC =
      mkImportedUC i.val ((incomingOf (getField payload "useCases")).getD i.val .null) := by
    intro i
    show (importUseCases (getField payload "useCases")).getD i.val dfltUC = _
    rw [importUseCases, mapIdxUC_getD _ 0 i.val (by rw [hinc]; exact i.isLt)]
    simp
  refine ⟨hlen, hinc, ?_, ?_, hget⟩
  · intro i
    rw [hget i]
    rfl
  · intro i
    rw [hget i]
    exact scoresIn1to10_mkImportedUC _ _

/-- C6 (corrected): importing `{useCases:[{name:"X"}]}` yields exactly 8
use cases; entry 0 keeps name "X" with every missing score clamped to 1
(inside `[1,10]`); the padded entries at positions 1..7 are fully default
with scores 5 but are named "Use Case 1" through "Use Case 7" — the pad
label counts from the pad index, not the entry's final position. -/
theorem import_single_usecase_amended :
    (importProject (.obj [("useCases", .arr [.obj [("name", .str "X")]])])).useCases =
      [⟨0, "X", "", true, ⟨1, 1, 1, 1, 1, 1, 1, 1⟩⟩,
       ⟨1, "Use Case 1", "", true, ⟨5, 5, 5, 5, 5, 5, 5, 5⟩⟩,
       ⟨2, "Use Case 2", "", true, ⟨5, 5, 5, 5, 5, 5, 5, 5⟩⟩,
       ⟨3, "Use Case 3", "", true, ⟨5, 5, 5, 5, 5, 5, 5, 5⟩⟩,
       ⟨4, "Use Case 4", "", true, ⟨5, 5, 5, 5, 5, 5, 5, 5⟩⟩,
       ⟨5, "Use Case 5", "", true, ⟨5, 5, 5, 5, 5, 5, 5, 5⟩⟩,
       ⟨6, "Use Case 6", "", true, ⟨5, 5, 5, 5, 5, 5, 5, 5⟩⟩,
       ⟨7, "Use Case 7", "", true, ⟨5, 5, 5, 5, 5, 5, 5, 5⟩⟩] := by decide

/-- C6 counterexample: after importing `{useCases:[{name:"X"}]}` the entry
at position 1 is not named "Use Case 2" as the claim requires. -/
theorem import_single_usecase_pad_name_cx :
    ¬ (((importProject (.obj [("useCases", .arr [.obj [("name", .str "X")]])])).useCases.getD 1
      dfltUC).name = "Use Case 2") := by decide

lemma digitChar_toNat (d : ℕ) (h : d < 10) : (digitChar d).toNat - 48 = d := by
  interval_cases d <;> rfl

lemma isDigitC_digitChar (d : ℕ) (h : d < 10) : isDigitC (digitChar d) = true := by
  interval_cases d <;> rfl

lemma digitChar_ne_minus (d : ℕ) (h : d < 10) : ¬ (digitChar d = '-') := by
  interval_cases d <;> decide

lemma natToDigitsAux_lt (fuel : ℕ) : ∀ (n : ℕ), ∀ d ∈ natToDigitsAux fuel n, d < 10 := by
  induction fuel with
  | zero =>
    intro n d hd
    exact absurd hd (by simp [natToDigitsAux])
  | succ fuel ih =>
    intro n d hd
    rw [natToDigitsAux] at hd
    by_cases hn : n = 0
    · rw [if_pos hn] at hd
      exact absurd hd (by simp)
    · rw [if_neg hn] at hd
      rcases List.mem_append.1 hd with h1 | h2
      · exact ih (n / 10) d h1
      · have : d = n % 10 := by simpa using h2
        rw [this]
        exact Nat.mod_lt n (by norm_num)

lemma natDigitsBE_lt (n : ℕ) : ∀ d ∈ natDigitsBE n, d < 10 := by
  intro d hd
  rw [natDigitsBE] at hd
  by_cases hn : n = 0
  · rw [if_pos hn] at hd
    have : d = 0 := by simpa using hd
    rw [this]
    norm_num
  · rw [if_neg hn] at hd
    exact natToDigitsAux_lt n n d hd

lemma natDigitsBE_ne_nil (n : ℕ) : natDigitsBE n ≠ [] := by
  rw [natDigitsBE]
  by_cases hn : n = 0
  · rw [if_pos hn]
    simp
  · rw [if_neg hn]
    obtain ⟨m, rfl⟩ := Nat.exists_eq_succ_of_ne_zero hn
    rw [natToDigitsAux, if_neg (by omega)]
    simp

lemma foldl_digitChar (ds : List ℕ) (hds : ∀ d ∈ ds, d < 10) (a : ℕ) :
    List.foldl (fun acc c => 10 * acc + (c.toNat - 48)) a (ds.map digitChar) =
      List.foldl (fun acc d => 10 * acc + d) a ds := by
  induction ds generalizing a with
  | nil => rfl
  | cons d rest ih =>
    simp only [List.map_cons, List.foldl_cons]
    rw [digitChar_toNat d (hds d (List.mem_cons_self d rest))]
    exact ih (fun x hx => hds x (List.mem_cons_of_mem d hx)) _

lemma foldl_base10 (fuel : ℕ) : ∀ (n : ℕ), n ≤ fuel → ∀ (a : ℕ),
    List.foldl (fun acc d => 10 * acc + d) a (natToDigitsAux fuel n) =
      a * 10 ^ (natToDigitsAux fuel n).length + n := by
  induction fuel with
  | zero =>
    intro n hn a
    have : n = 0 := Nat.le_zero.1 hn
    simp [natToDigitsAux, this]
  | succ fuel ih =>
    intro n hn a
    rw [natToDigitsAux]
    by_cases hz : n = 0
    · rw [if_pos hz]
      simp [hz]
    · rw [if_neg hz]
      have hdiv : n / 10 ≤ fuel := by
        have : n / 10 < n := Nat.div_lt_self (Nat.pos_of_ne_zero hz) (by norm_num)
        omega
      rw [List.foldl_append, ih (n / 10) hdiv a]
      simp only [List.foldl_cons, List.foldl_nil, List.length_append, List.length_cons,
        List.length_nil]
      have hmod := Nat.div_add_mod n 10
      calc 10 * (a * 10 ^ (natToDigitsAux fuel (n / 10)).length + n / 10) + n % 10
          = a * 10 ^ ((natToDigitsAux fuel (n / 10)).length + (0 + 1)) +
            (10 * (n / 10) + n % 10) := by ring
        _ = a * 10 ^ ((natToDigitsAux fuel (n / 10)).length + (0 + 1)) + n := by omega

lemma natFromDigitChars_natRepr (n : ℕ) :
    natFromDigitChars ((natDigitsBE n).map digitChar) = n := by
  rw [natFromDigitChars, foldl_digitChar _ (natDigitsBE_lt n) 0, natDigitsBE]
  by_cases hn : n = 0
  · rw [if_pos hn, hn]
    rfl
  · rw [if_neg hn, foldl_base10 n n (le_refl n) 0]
    simp

lemma splitDigits_all (cs : List Char) (h : ∀ c ∈ cs, isDigitC c = true) :
    splitDigits cs = (cs, []) := by
  induction cs with
  | nil => rfl
  | cons c rest ih =>
    rw [splitDigits, if_pos (h c (List.mem_cons_self c rest))]
    rw [ih (fun x hx => h x (List.mem_cons_of_mem c hx))]

lemma parseUnsigned_digits (cs : List Char) (h : splitDigits cs = (cs, [])) :
    parseUnsigned cs = if cs.isEmpty = true then none else some ((natFromDigitChars cs : ℚ)) := by
  rw [parseUnsigned, h]

lemma strToNumber_natRepr (n : ℕ) : strToNumber (natRepr n) = some ((n : ℕ) : ℚ) := by
  have hlt := natDigitsBE_lt n
  have hne := natDigitsBE_ne_nil n
  obtain ⟨d, ds, hds⟩ : ∃ d ds, natDigitsBE n = d :: ds := by
    cases hd : natDigitsBE n with
    | nil => exact absurd hd hne
    | cons d ds => exact ⟨d, ds, rfl⟩
  have hall : ∀ c ∈ (natDigitsBE n).map digitChar, isDigitC c = true := by
    intro c hc
    obtain ⟨x, hx, rfl⟩ := List.mem_map.1 hc
    exact isDigitC_digitChar x (hlt x hx)
  have hsplit := splitDigits_all _ hall
  have hval := natFromDigitChars_natRepr n
  rw [natRepr, strToNumber]
  simp only [hds, List.map_cons]
  rw [if_neg (digitChar_ne_minus d (hlt d (hds ▸ List.mem_cons_self d ds)))]
  rw [hds, List.map_cons] at hsplit hval
  rw [parseUnsigned_digits _ hsplit, if_neg (by simp), hval]

lemma clamp1to10_intCast (s : ℤ) (h1 : 1 ≤ s) (h2 : s ≤ 10) :
    clamp1to10 (some (.num (s : ℚ))) = s := by
  show max 1 (min 10 (jsRound ((s : ℚ)))) = s
  rw [jsRound_intCast, min_eq_right h2, max_eq_right h1]

lemma clamp1to5_intCast (s : ℤ) (h1 : 1 ≤ s) (h2 : s ≤ 5) :
    clamp1to5 (some (.num (s : ℚ))) = s := by
  show max 1 (min 5 (jsRound ((s : ℚ)))) = s
  rw [jsRound_intCast, min_eq_right h2, max_eq_right h1]

lemma importScores_roundtrip (sc : ReadinessScores) (h : scInRange sc = true) :
    importScores (some (scoresToJson sc)) = sc := by
  rw [scInRange, decide_eq_true_eq] at h
  obtain ⟨p1, q1, p2, q2, p3, q3, p4, q4, p5, q5, p6, q6, p7, q7, p8, q8, p9, q9, p10, q10,
    p11, q11⟩ := h
  show (⟨clamp1to5 (some (.num (sc.dataMaturity : ℚ))), clamp1to5 (some (.num (sc.peopleSkills : ℚ))),
    clamp1to5 (some (.num (sc.processesWorkflows : ℚ))), clamp1to5 (some (.num (sc.governanceRisk : ℚ))),
    clamp1to5 (some (.num (sc.resourcesBudget : ℚ))), clamp1to5 (some (.num (sc.techInfra : ℚ))),
    clamp1to5 (some (.num (sc.changeReadiness : ℚ))), clamp1to5 (some (.num (sc.leadershipAlignment : ℚ))),
    clamp1to5 (some (.num (sc.partnerships : ℚ))), clamp1to5 (some (.num (sc.citizenOrientation : ℚ))),
    clamp1to5 (some (.num (sc.ethicsTrust : ℚ))), sc.notes⟩ : ReadinessScores) = sc
  rw [clamp1to5_intCast _ p1 q1, clamp1to5_intCast _ p2 q2, clamp1to5_intCast _ p3 q3,
    clamp1to5_intCast _ p4 q4, clamp1to5_intCast _ p5 q5, clamp1to5_intCast _ p6 q6,
    clamp1to5_intCast _ p7 q7, clamp1to5_intCast _ p8 q8, clamp1to5_intCast _ p9 q9,
    clamp1to5_intCast _ p10 q10, clamp1to5_intCast _ p11 q11]

lemma mkImportedUC_ucToJson (n : ℕ) (u : UseCase) (hn : u.id = n)
    (hs : scoresIn1to10 u.scores = true) : mkImportedUC n (ucToJson u) = u := by
  rw [scoresIn1to10, decide_eq_true_eq] at hs
  obtain ⟨a1, b1, a2, b2, a3, b3, a4, b4, a5, b5, a6, b6, a7, b7, a8, b8⟩ := hs
  show (⟨n, u.name, u.description, u.visible,
    ⟨clamp1to10 (some (.num (u.scores.dataReady : ℚ))),
      clamp1to10 (some (.num (u.scores.techMature : ℚ))),
      clamp1to10 (some (.num (u.scores.lowImplementationCost : ℚ))),
      clamp1to10 (some (.num (u.scores.reusable : ℚ))),
      clamp1to10 (some (.num (u.scores.increasesProductivity : ℚ))),
      clamp1to10 (some (.num (u.scores.reducesCosts : ℚ))),
      clamp1to10 (some (.num (u.scores.benefitsPublic : ℚ))),
      clamp1to10 (some (.num (u.scores.noRisk : ℚ)))⟩⟩ : UseCase) = u
  rw [clamp1to10_intCast _ a1 b1, clamp1to10_intCast _ a2 b2, clamp1to10_intCast _ a3 b3,
    clamp1to10_intCast _ a4 b4, clamp1to10_intCast _ a5 b5, clamp1to10_intCast _ a6 b6,
    clamp1to10_intCast _ a7 b7, clamp1to10_intCast _ a8 b8, ← hn]

lemma mapIdxUC_roundtrip (ucs : List UseCase) (n : ℕ) (h : canonicalFrom n ucs = true) :
    mapIdxUC n (ucs.map ucToJson) = ucs := by
  induction ucs generalizing n with
  | nil => rfl
  | cons u rest ih =>
    rw [canonicalFrom] at h
    simp only [Bool.and_eq_true] at h
    obtain ⟨⟨hid, hsc⟩, hrest⟩ := h
    have hid' : u.id = n := by simpa using hid
    simp only [List.map_cons, mapIdxUC]
    rw [mkImportedUC_ucToJson n u hid' hsc, ih (n + 1) hrest]

lemma incomingOf_exact (l : List JsonVal) (h : l.length = 8) :
    incomingOf (some (.arr l)) = l := by
  simp only [incomingOf]
  rw [if_neg (by omega), if_neg (by omega)]

lemma importUseCases_roundtrip (ucs : List UseCase) (hlen : ucs.length = 8)
    (hc : canonicalFrom 0 ucs = true) :
    importUseCases (some (.arr (ucs.map ucToJson))) = ucs := by
  rw [importUseCases, incomingOf_exact _ (by rw [List.length_map, hlen])]
  exact mapIdxUC_roundtrip ucs 0 hc

lemma parsePlacement_export (id : ℤ) (p : Point) (hid : 0 ≤ id) (hp : pointIn01 p = true) :
    parsePlacement (intKeyStr id, .obj [("x", .num p.x), ("y", .num p.y)]) = some (id, p) := by
  rw [pointIn01, decide_eq_true_eq] at hp
  obtain ⟨hx0, hx1, hy0, hy1⟩ := hp
  cases id with
  | ofNat m =>
    have hs : strToNumber (intKeyStr (Int.ofNat m)) = some ((m : ℕ) : ℚ) := strToNumber_natRepr m
    have hden : ((m : ℕ) : ℚ).den = 1 := Rat.den_natCast m
    have hnum : ((m : ℕ) : ℚ).num = Int.ofNat m := Rat.num_natCast m
    have hobj : isObjTruthy (JsonVal.obj [("x", JsonVal.num p.x), ("y", JsonVal.num p.y)]) = true :=
      rfl
    rw [parsePlacement, hs]
    show (if ((m : ℕ) : ℚ).den = 1 then
        if isObjTruthy (JsonVal.obj [("x", .num p.x), ("y", .num p.y)]) = true then
          some (((m : ℕ) : ℚ).num, ⟨max 0 (min 1 p.x), max 0 (min 1 p.y)⟩)
        else none
      else none) = some (Int.ofNat m, p)
    rw [if_pos hden, if_pos hobj, hnum, min_eq_right hx1, max_eq_right hx0, min_eq_right hy1,
      max_eq_right hy0]
  | negSucc m => exact absurd hid (not_le.2 (Int.negSucc_lt_zero m))

lemma insertPl_append (acc : List (ℤ × Point)) (id : ℤ) (p : Point)
    (h : ∀ kv ∈ acc, kv.1 < id) : insertPl acc id p = acc ++ [(id, p)] := by
  induction acc with
  | nil => rfl
  | cons kv rest ih =>
    have hk : kv.1 < id := h kv (List.mem_cons_self kv rest)
    obtain ⟨k, v⟩ := kv
    rw [insertPl, if_neg (not_lt.2 (le_of_lt hk)), if_neg (ne_of_gt hk)]
    rw [ih (fun x hx => h x (List.mem_cons_of_mem _ hx))]
    rfl

lemma foldl_insert_sorted (pls : List (ℤ × Point)) : ∀ (lo : ℤ), 0 ≤ lo →
    sortedKeysFrom lo pls = true → ∀ (acc : List (ℤ × Point)), (∀ kv ∈ acc, kv.1 < lo) →
    List.foldl (fun acc kv =>
        match parsePlacement kv with
        | some ip => insertPl acc ip.1 ip.2
        | none => acc) acc
      (pls.map (fun kv => (intKeyStr kv.1, JsonVal.obj [("x", .num kv.2.x), ("y", .num kv.2.y)]))) =
      acc ++ pls := by
  induction pls with
  | nil =>
    intro lo _ _ acc _
    simp
  | cons kp rest ih =>
    intro lo hlo hs acc hacc
    obtain ⟨k, p⟩ := kp
    rw [sortedKeysFrom] at hs
    simp only [Bool.and_eq_true] at hs
    obtain ⟨⟨hk, hp⟩, hrest⟩ := hs
    have hk' : lo ≤ k := of_decide_eq_true hk
    have h0k : (0 : ℤ) ≤ k := le_trans hlo hk'
    simp only [List.map_cons, List.foldl_cons]
    rw [show (match parsePlacement (intKeyStr k, JsonVal.obj [("x", .num p.x), ("y", .num p.y)]) with
        | some ip => insertPl acc ip.1 ip.2
        | none => acc) = insertPl acc k p from by rw [parsePlacement_export k p h0k hp]]
    rw [insertPl_append acc k p (fun kv hkv => lt_of_lt_of_le (hacc kv hkv) hk')]
    rw [ih (k + 1) (by omega) hrest (acc ++ [(k, p)]) ?side]
    · rw [List.append_assoc]
      rfl
    case side =>
      intro kv hkv
      rcases List.mem_append.1 hkv with hv | hv
      · exact lt_of_lt_of_le (lt_of_lt_of_le (hacc kv hv) hk') (by omega)
      · have : kv = (k, p) := by simpa using hv
        rw [this]
        omega

lemma importPlacements_roundtrip (pls : List (ℤ × Point)) (h : canonicalPlacements pls = true) :
    importPlacements (some (placementsToJson ⟨pls, none⟩)) = pls := by
  rw [canonicalPlacements] at h
  have hw : placementsToJson ⟨pls, none⟩ = .obj (pls.map
      (fun kv => (intKeyStr kv.1, JsonVal.obj [("x", .num kv.2.x), ("y", .num kv.2.y)]))) := by
    rw [placementsToJson]
    simp
  rw [hw]
  show List.foldl (fun acc kv =>
      match parsePlacement kv with
      | some ip => insertPl acc ip.1 ip.2
      | none => acc) []
    (pls.map (fun kv => (intKeyStr kv.1, JsonVal.obj [("x", .num kv.2.x), ("y", .num kv.2.y)]))) = pls
  rw [foldl_insert_sorted pls 0 (le_refl 0) h [] (by simp)]
  rfl

lemma importProject_exportProject (ts : String) (sc : ReadinessScores) (ucs : List UseCase)
    (pls : List (ℤ × Point)) (h1 : scInRange sc = true) (h2 : ucs.length = 8)
    (h3 : canonicalFrom 0 ucs = true) (h4 : canonicalPlacements pls = true) :
    importProject (exportProject ts ⟨sc, ucs, ⟨pls, none⟩⟩) = ⟨sc, ucs, ⟨pls, none⟩⟩ := by
  have gs : getField (exportProject ts ⟨sc, ucs, ⟨pls, none⟩⟩) "scores" =
      some (scoresToJson sc) := rfl
  have gu : getField (exportProject ts ⟨sc, ucs, ⟨pls, none⟩⟩) "useCases" =
      some (.arr (ucs.map ucToJson)) := rfl
  have gp : getField (exportProject ts ⟨sc, ucs, ⟨pls, none⟩⟩) "placements" =
      some (placementsToJson ⟨pls, none⟩) := rfl
  rw [importProject, gs, gu, gp, importScores_roundtrip sc h1,
    importUseCases_roundtrip ucs h2 h3, importPlacements_roundtrip pls h4]

/-- C8 (corrected): for documents in export-canonical form — produced by
the serializer from a state with readiness integers in `[1,5]`, exactly 8
use cases with positional ids and criterion scores in `[1,10]`, and
placements with ascending non-negative integer keys and coordinates in
`[0,1]` — deserialization reproduces the state exactly and immediate
re-serialization (with the same timestamp) yields a value-equal document. -/
theorem roundtrip_canonical (ts : String) (sc : ReadinessScores) (ucs : List UseCase)
    (pls : List (ℤ × Point)) (h1 : scInRange sc = true) (h2 : ucs.length = 8)
    (h3 : canonicalFrom 0 ucs = true) (h4 : canonicalPlacements pls = true) :
    importProject (exportProject ts ⟨sc, ucs, ⟨pls, none⟩⟩) = ⟨sc, ucs, ⟨pls, none⟩⟩ ∧
      exportProject ts (importProject (exportProject ts ⟨sc, ucs, ⟨pls, none⟩⟩)) =
        exportProject ts ⟨sc, ucs, ⟨pls, none⟩⟩ := by
  have h := importProject_exportProject ts sc ucs pls h1 h2 h3 h4
  exact ⟨h, by rw [h]⟩

/-- Witness use-case list for C8: eight default-shaped entries. -/
def c8ucs : List UseCase := (List.range 8).map (fun i => ⟨i, "", "", true, ⟨5, 5, 5, 5, 5, 5, 5, 5⟩⟩)

/-- Witness placements for C8: two in-range entries with ascending keys. -/
def c8pls : List (ℤ × Point) := [(0, ⟨mkRat 1 2, mkRat 3 4⟩), (3, ⟨1, 0⟩)]

/-- C8 witness: the round-trip theorem applied to a concrete canonical
state. -/
theorem roundtrip_canonical_witness :
    importProject (exportProject "2024-01-01T00:00:00.000Z" ⟨defaultReadiness, c8ucs, ⟨c8pls, none⟩⟩) =
        ⟨defaultReadiness, c8ucs, ⟨c8pls, none⟩⟩ ∧
      exportProject "2024-01-01T00:00:00.000Z"
          (importProject (exportProject "2024-01-01T00:00:00.000Z"
            ⟨defaultReadiness, c8ucs, ⟨c8pls, none⟩⟩)) =
        exportProject "2024-01-01T00:00:00.000Z" ⟨defaultReadiness, c8ucs, ⟨c8pls, none⟩⟩ :=
  roundtrip_canonical "2024-01-01T00:00:00.000Z" defaultReadiness c8ucs c8pls
    (by decide) (by decide) (by decide) (by decide)

/-- A §6-shaped document with nine use-case objects (the claim allows up
to ten), used to refute unrestricted round-trip stability. -/
def nineUCdoc : JsonVal :=
  exportProject "T" ⟨defaultReadiness,
    (List.range 9).map (fun i => ⟨i, "", "", true, ⟨5, 5, 5, 5, 5, 5, 5, 5⟩⟩), ⟨[], none⟩⟩

/-- The length of a document's useCases array. -/
def ucCountOfDoc (doc : JsonVal) : ℕ :=
  match getField doc "useCases" with
  | some (.arr xs) => xs.length
  | _ => 0

/-- C8 counterexample: the nine-use-case document is truncated to eight on
import, so re-serializing right after deserializing does not reproduce it
even with the same timestamp. -/
theorem roundtrip_nine_usecases_cx :
    ¬ (exportProject "T" (importProject nineUCdoc) = nineUCdoc) := by
  intro h
  exact absurd (congrArg ucCountOfDoc h) (by decide)

/-- Append the transient drag-marker key to a serialized placements
object (identity on anything else). -/
def addMarkerField (i : ℕ) : JsonVal → JsonVal
  | .obj l => .obj (l ++ [("__activeId", .num (i : ℚ))])
  | v => v

/-- Rewrite a serialized project document's placements field by appending
the drag-marker key. -/
def addMarkerToDoc (i : ℕ) : JsonVal → JsonVal
  | .obj l => .obj (l.map (fun kv => if kv.1 = "placements" then (kv.1, addMarkerField i kv.2) else kv))
  | v => v

/-- C9 (corrected): `exportProject` performs no filtering — serializing a
state whose placements map carries the `__activeId` drag marker yields
exactly the marker-free document with an extra `"__activeId"` key inside
placements (so the marker does leak into the export); the marker is only
discarded on import, where its key fails the integer-id parse, so
deserializing the marked export yields the same placements as
deserializing the unmarked one. -/
theorem export_marker_behavior_amended (ts : String) (sc : ReadinessScores)
    (ucs : List UseCase) (entries : List (ℤ × Point)) (i : ℕ) :
    exportProject ts ⟨sc, ucs, ⟨entries, some i⟩⟩ =
        addMarkerToDoc i (exportProject ts ⟨sc, ucs, ⟨entries, none⟩⟩) ∧
      importPlacements (some (placementsToJson ⟨entries, some i⟩)) =
        importPlacements (some (placementsToJson ⟨entries, none⟩)) := by
  constructor
  · have hfield : placementsToJson ⟨entries, some i⟩ =
        addMarkerField i (placementsToJson ⟨entries, none⟩) := by
      rw [placementsToJson, placementsToJson, addMarkerField]
      simp
    rw [exportProject, exportProject, addMarkerToDoc]
    simp only [List.map_cons, List.map_nil]
    rw [if_neg (by decide : ¬("version" = "placements")),
      if_neg (by decide : ¬("exportedAt" = "placements")),
      if_neg (by decide : ¬("scores" = "placements")),
      if_neg (by decide : ¬("useCases" = "placements")),
      if_pos trivial, hfield]
  · have hmark : parsePlacement ("__activeId", JsonVal.num (i : ℚ)) = none := rfl
    rw [placementsToJson, placementsToJson]
    show List.foldl (fun acc kv =>
        match parsePlacement kv with
        | some ip => insertPl acc ip.1 ip.2
        | none => acc) []
      ((entries.map (fun kv => (intKeyStr kv.1, JsonVal.obj [("x", .num kv.2.x), ("y", .num kv.2.y)]))) ++
        [("__activeId", JsonVal.num (i : ℚ))]) =
      List.foldl (fun acc kv =>
        match parsePlacement kv with
        | some ip => insertPl acc ip.1 ip.2
        | none => acc) []
      ((entries.map (fun kv => (intKeyStr kv.1, JsonVal.obj [("x", .num kv.2.x), ("y", .num kv.2.y)]))) ++ [])
    rw [List.foldl_append, List.foldl_append]
    simp [hmark]

/-- The number of keys in a document's serialized placements object. -/
def placementKeyCount (doc : JsonVal) : ℕ :=
  match getField doc "placements" with
  | some (.obj l) => l.length
  | _ => 0

/-- C9 counterexample: serializing a placements map carrying the
drag marker produces a different document (an extra placements key) than
serializing the same map without the marker, at the same timestamp. -/
theorem export_marker_leak_cx :
    ¬ (exportProject "t" ⟨defaultReadiness, [], ⟨[], some 3⟩⟩ =
      exportProject "t" ⟨defaultReadiness, [], ⟨[], none⟩⟩) := by
  intro h
  exact absurd (congrArg placementKeyCount h) (by decide)

end AIStrategy
